import Mathlib

/-!
Verification of the Cerberus USB watchdog firmware (`Software/Cerberus/Cerberus.ino`).

The firmware exposes a honeypot mass-storage device (a small real RAM disk behind a
larger advertised capacity), watches read/write access patterns for bait-file reads,
writes and deletion tombstones, gates the storage interface behind a boot-time hash
check, decodes USB string descriptors from UTF-16LE to UTF-8, and monitors HID
keyboard reports.  This file is a shallow embedding of those routines, with bytes and
block indices as `Nat`, memory as functions `Nat → Nat`, and the serial/OLED output
of the reporting loop as lists of strings.
-/

namespace Cerberus

/-! Compile-time constants from Cerberus.ino. -/

def DISK_BLOCK_NUM : Nat := 0x150
def FAKE_DISK_BLOCK_NUM : Nat := 0x800
def DISK_BLOCK_SIZE : Nat := 0x200
def BLOCK_AUTORUN : Nat := 102
def BLOCK_README : Nat := 100
def BYTES_TO_HASH : Nat := 512 * 2
def BYTES_TO_HASH_OFFSET : Nat := 7

/-- Burned hash to check consistency (`uint valid_hash = 2362816530;`). -/
def valid_hash : Nat := 2362816530

/-- The mutable globals of the firmware that the MSC callbacks and the core-0
reporting loop touch.  `msc_disk` is the backing RAM disk, modelled as a flat
byte view (`msc_disk[lba]` is the 512-byte run starting at `lba * DISK_BLOCK_SIZE`,
the blocks being contiguous in the real 2-D array). -/
structure SysState where
  readme : Bool
  autorun : Bool
  written : Bool
  deleted : Bool
  written_reported : Bool
  deleted_reported : Bool
  hid_sent : Bool
  hid_reported : Bool
  usbkiller : Bool
  disk : Nat → Nat

/-- Globals at power-on: all the boolean flags start `false`, the disk holds the
compiled-in ramdisk image `disk0`. -/
def initState (disk0 : Nat → Nat) : SysState :=
  ⟨false, false, false, false, false, false, false, false, false, disk0⟩

/-- Result of `msc_read_callback`: the updated globals, the caller's buffer after
the callback (a byte function), and the returned `int32_t`. -/
structure ReadResult where
  st : SysState
  buffer : Nat → Nat
  ret : Nat

/-- `msc_read_callback(lba, buffer, bufsize)`: flags reads of the README and
AUTORUN bait blocks, and copies `bufsize` bytes from `msc_disk[lba]` into the
caller's buffer only when `lba < DISK_BLOCK_NUM - 1`; always returns `bufsize`. -/
def msc_read_callback (st : SysState) (lba : Nat) (buffer : Nat → Nat)
    (bufsize : Nat) : ReadResult :=
  let st1 := if lba = BLOCK_README then { st with readme := true } else st
  let st2 := if lba = BLOCK_AUTORUN then { st1 with autorun := true } else st1
  let buffer' := if lba < DISK_BLOCK_NUM - 1 then
      fun i => if i < bufsize then st2.disk (lba * DISK_BLOCK_SIZE + i) else buffer i
    else buffer
  ⟨st2, buffer', bufsize⟩

/-- Result of `msc_write_callback`: the updated globals (including the disk) and
the returned `int32_t`. -/
structure WriteResult where
  st : SysState
  ret : Nat

/-- `msc_write_callback(lba, buffer, bufsize)`: flags a deletion tombstone
(byte `0xE5` at offset 32, 64 or 160 of a write to block 7), flags any write
with `lba > 10`, and copies the buffer into `msc_disk[lba]` only when
`lba < DISK_BLOCK_NUM - 1`; always returns `bufsize`. -/
def msc_write_callback (st : SysState) (lba : Nat) (buffer : Nat → Nat)
    (bufsize : Nat) : WriteResult :=
  let st1 := if lba = 7 ∧ (buffer 32 = 0xE5 ∨ buffer 64 = 0xE5 ∨ buffer 160 = 0xE5) then
      { st with deleted := true } else st
  let st2 := if lba > 10 then { st1 with written := true } else st1
  let st3 := if lba < DISK_BLOCK_NUM - 1 then
      { st2 with disk := fun a =>
          if lba * DISK_BLOCK_SIZE ≤ a ∧ a < lba * DISK_BLOCK_SIZE + bufsize then
            buffer (a - lba * DISK_BLOCK_SIZE)
          else st2.disk a }
    else st2
  ⟨st3, bufsize⟩

/-! Concrete helper inputs used by counterexamples and witnesses. -/

/-- A backing disk image filled with the byte 1. -/
def diskOnes : Nat → Nat := fun _ => 1

/-- An all-zero caller buffer. -/
def zeroBuf : Nat → Nat := fun _ => 0

/-- A write buffer carrying the deletion tombstone byte 0xE5 at offset 32. -/
def tombBuf : Nat → Nat := fun i => if i = 32 then 0xE5 else 0

/-- C1: a block read or write whose index lies outside `[0, DISK_BLOCK_NUM)`
never dereferences the backing buffer: the read leaves the caller's buffer
untouched, the write changes no backing block, and both callbacks still return
the requested transfer size `bufsize`. -/
theorem msc_out_of_range_safe (st : SysState) (lba : Nat) (buffer : Nat → Nat)
    (bufsize : Nat) (h : DISK_BLOCK_NUM ≤ lba) :
    (msc_read_callback st lba buffer bufsize).buffer = buffer ∧
    (msc_read_callback st lba buffer bufsize).st.disk = st.disk ∧
    (msc_read_callback st lba buffer bufsize).ret = bufsize ∧
    (msc_write_callback st lba buffer bufsize).st.disk = st.disk ∧
    (msc_write_callback st lba buffer bufsize).ret = bufsize := by
  have hg : ¬ (lba < DISK_BLOCK_NUM - 1) := by
    simp only [DISK_BLOCK_NUM] at h ⊢; omega
  refine ⟨?_, ?_, rfl, ?_, rfl⟩
  · simp only [msc_read_callback, if_neg hg]
  · simp only [msc_read_callback]
    split <;> split <;> rfl
  · simp only [msc_write_callback, if_neg hg]
    split <;> split <;> rfl

/-- C1 witness: at the concrete out-of-range index 0x800 (the advertised fake
capacity), buffer, disk and return value behave as `msc_out_of_range_safe`
states. -/
theorem msc_out_of_range_safe_witness :
    DISK_BLOCK_NUM ≤ 0x800 ∧
    ((msc_read_callback (initState diskOnes) 0x800 zeroBuf 512).buffer = zeroBuf ∧
     (msc_read_callback (initState diskOnes) 0x800 zeroBuf 512).st.disk
       = (initState diskOnes).disk ∧
     (msc_read_callback (initState diskOnes) 0x800 zeroBuf 512).ret = 512 ∧
     (msc_write_callback (initState diskOnes) 0x800 zeroBuf 512).st.disk
       = (initState diskOnes).disk ∧
     (msc_write_callback (initState diskOnes) 0x800 zeroBuf 512).ret = 512) :=
  ⟨by decide, msc_out_of_range_safe (initState diskOnes) 0x800 zeroBuf 512 (by decide)⟩

/-- C2 counterexample: the last real block, `lba = DISK_BLOCK_NUM - 1 = 335`,
is inside `[0, DISK_BLOCK_NUM)` but the read guard `lba < DISK_BLOCK_NUM - 1`
excludes it, so with an all-ones disk the caller's zero buffer is not filled
with the backing block's bytes. -/
theorem msc_read_last_block_cex :
    335 < DISK_BLOCK_NUM ∧
    ¬ ((msc_read_callback (initState diskOnes) 335 zeroBuf 512).buffer 0
        = (initState diskOnes).disk (335 * DISK_BLOCK_SIZE + 0)) := by
  constructor
  · decide
  · intro hcontra
    have : (msc_read_callback (initState diskOnes) 335 zeroBuf 512).buffer 0 = 0 := by
      simp only [msc_read_callback, BLOCK_README, BLOCK_AUTORUN, DISK_BLOCK_NUM]
      norm_num [zeroBuf]
    rw [this] at hcontra
    simp [initState, diskOnes] at hcontra

/-- C2 (amended): a read whose index satisfies `lba < DISK_BLOCK_NUM - 1`
copies the backing bytes starting at `msc_disk[lba]` into the caller's buffer
(all `i < bufsize`), while the last real block `lba = DISK_BLOCK_NUM - 1` is
excluded by the guard and leaves the caller's buffer untouched. -/
theorem msc_read_in_range_copies (st : SysState) (lba : Nat) (buffer : Nat → Nat)
    (bufsize i : Nat) (hl : lba < DISK_BLOCK_NUM - 1) (hi : i < bufsize) :
    (msc_read_callback st lba buffer bufsize).buffer i
      = st.disk (lba * DISK_BLOCK_SIZE + i) ∧
    ∀ b' : Nat → Nat, ∀ n,
      (msc_read_callback st (DISK_BLOCK_NUM - 1) b' n).buffer = b' := by
  constructor
  · have hdisk : ∀ s2 : SysState,
        (msc_read_callback st lba buffer bufsize).st.disk = st.disk := by
      intro _
      simp only [msc_read_callback]
      split <;> split <;> rfl
    simp only [msc_read_callback, if_pos hl, if_pos hi]
    split <;> split <;> rfl
  · intro b' n
    simp only [msc_read_callback, DISK_BLOCK_NUM]
    norm_num

/-- C2 amended witness: block 0 is copied (an all-ones disk puts byte 1 into
the caller's zero buffer) and the last real block leaves the buffer alone. -/
theorem msc_read_in_range_copies_witness :
    (msc_read_callback (initState diskOnes) 0 zeroBuf 512).buffer 0
      = (initState diskOnes).disk (0 * DISK_BLOCK_SIZE + 0) ∧
    ∀ b' : Nat → Nat, ∀ n,
      (msc_read_callback (initState diskOnes) (DISK_BLOCK_NUM - 1) b' n).buffer = b' :=
  msc_read_in_range_copies (initState diskOnes) 0 zeroBuf 512 0 (by decide) (by decide)

/-- C4: honeypot flagging postconditions of the MSC callbacks: a read of
`BLOCK_README` sets `readme` and no other index changes it; a read of
`BLOCK_AUTORUN` sets `autorun` and no other index changes it; a write to
block 7 carrying byte 0xE5 at offset 32, 64 or 160 sets `deleted`; a write
with `lba > 10` sets `written` and a write with `lba ≤ 10` leaves it. -/
theorem honeypot_flags :
    (∀ st : SysState, ∀ b : Nat → Nat, ∀ n,
      (msc_read_callback st BLOCK_README b n).st.readme = true) ∧
    (∀ st : SysState, ∀ b : Nat → Nat, ∀ n lba, lba ≠ BLOCK_README →
      (msc_read_callback st lba b n).st.readme = st.readme) ∧
    (∀ st : SysState, ∀ b : Nat → Nat, ∀ n,
      (msc_read_callback st BLOCK_AUTORUN b n).st.autorun = true) ∧
    (∀ st : SysState, ∀ b : Nat → Nat, ∀ n lba, lba ≠ BLOCK_AUTORUN →
      (msc_read_callback st lba b n).st.autorun = st.autorun) ∧
    (∀ st : SysState, ∀ b : Nat → Nat, ∀ n,
      b 32 = 0xE5 ∨ b 64 = 0xE5 ∨ b 160 = 0xE5 →
      (msc_write_callback st 7 b n).st.deleted = true) ∧
    (∀ st : SysState, ∀ b : Nat → Nat, ∀ n lba, 10 < lba →
      (msc_write_callback st lba b n).st.written = true) ∧
    (∀ st : SysState, ∀ b : Nat → Nat, ∀ n lba, lba ≤ 10 →
      (msc_write_callback st lba b n).st.written = st.written) := by
  refine ⟨?_, ?_, ?_, ?_, ?_, ?_, ?_⟩
  · intro st b n
    simp [msc_read_callback, BLOCK_README, BLOCK_AUTORUN]
  · intro st b n lba h
    simp only [msc_read_callback, if_neg h]
    split <;> rfl
  · intro st b n
    simp [msc_read_callback, BLOCK_README, BLOCK_AUTORUN]
  · intro st b n lba h
    simp only [msc_read_callback, if_neg h]
    split <;> rfl
  · intro st b n h
    simp only [msc_write_callback]
    split_ifs <;> simp_all
  · intro st b n lba h
    simp only [msc_write_callback, if_pos h]
    split <;> split <;> rfl
  · intro st b n lba h
    have h10 : ¬ (10 < lba) := by omega
    simp only [msc_write_callback, if_neg h10]
    split <;> split <;> rfl

/-- C4 witness: the flagging postconditions evaluated at concrete requests:
reads of 100 and 102, a non-bait read of 5, a tombstone write to block 7, a
write to block 20, and a write to block 5. -/
theorem honeypot_flags_witness :
    (msc_read_callback (initState diskOnes) BLOCK_README zeroBuf 512).st.readme = true ∧
    (msc_read_callback (initState diskOnes) 5 zeroBuf 512).st.readme
      = (initState diskOnes).readme ∧
    (msc_read_callback (initState diskOnes) BLOCK_AUTORUN zeroBuf 512).st.autorun = true ∧
    (msc_read_callback (initState diskOnes) 5 zeroBuf 512).st.autorun
      = (initState diskOnes).autorun ∧
    (msc_write_callback (initState diskOnes) 7 tombBuf 512).st.deleted = true ∧
    (msc_write_callback (initState diskOnes) 20 zeroBuf 512).st.written = true ∧
    (msc_write_callback (initState diskOnes) 5 zeroBuf 512).st.written
      = (initState diskOnes).written :=
  ⟨honeypot_flags.1 _ _ 512,
   honeypot_flags.2.1 _ _ 512 5 (by decide),
   honeypot_flags.2.2.1 _ _ 512,
   honeypot_flags.2.2.2.1 _ _ 512 5 (by decide),
   honeypot_flags.2.2.2.2.1 _ _ 512 (Or.inl (by decide)),
   honeypot_flags.2.2.2.2.2.1 _ _ 512 20 (by decide),
   honeypot_flags.2.2.2.2.2.2 _ _ 512 5 (by decide)⟩

/-! Boot-time integrity gate.  `setup()` computes
`XXH32(msc_disk[BYTES_TO_HASH_OFFSET] + 11, BYTES_TO_HASH, 0)` and calls
`usb_msc.begin()` exactly when the result equals `valid_hash`; otherwise it
prints a failure banner and spins in `while (1) delay(1000);` forever.  The
XXH32 algorithm itself lives in the external XxHash library, so the gate is
parametrised by the hash function; the byte range fed to it is taken from the
source. -/

/-- The exact byte range `setup()` hashes: `BYTES_TO_HASH` bytes starting at
block `BYTES_TO_HASH_OFFSET`, skipping the 11-byte `DISK_LABEL` prefix. -/
def hashInput (disk : Nat → Nat) : List Nat :=
  (List.range BYTES_TO_HASH).map
    (fun i => disk (BYTES_TO_HASH_OFFSET * DISK_BLOCK_SIZE + 11 + i))

/-- Outcome of the integrity gate in `setup()`: whether `usb_msc.begin()` was
called, and whether the firmware fell into the terminal `while (1)` loop. -/
structure SetupResult where
  msc_exposed : Bool
  halted : Bool

/-- The integrity-gate portion of `setup()`, parametrised by the XXH32 hash
function (external library code). -/
def setupGate (xxh32 : List Nat → Nat) (disk : Nat → Nat) : SetupResult :=
  let computed_hash := xxh32 (hashInput disk)
  if computed_hash = valid_hash then ⟨true, false⟩ else ⟨false, true⟩

/-- C3: for every hash function and disk image, `setup()` exposes the
mass-storage interface (calls `usb_msc.begin()`) if and only if the hash
computed over the `BYTES_TO_HASH` bytes at block `BYTES_TO_HASH_OFFSET` plus
the 11-byte label skip equals the burned-in `valid_hash`, and it reaches the
permanent halt loop if and only if that comparison fails — so the storage
interface is never exposed on a mismatch. -/
theorem setup_integrity_gate (xxh32 : List Nat → Nat) (disk : Nat → Nat) :
    ((setupGate xxh32 disk).msc_exposed = true ↔
      xxh32 (hashInput disk) = valid_hash) ∧
    ((setupGate xxh32 disk).halted = true ↔
      ¬ xxh32 (hashInput disk) = valid_hash) ∧
    ((setupGate xxh32 disk).msc_exposed = !(setupGate xxh32 disk).halted) := by
  unfold setupGate
  by_cases h : xxh32 (hashInput disk) = valid_hash <;> simp [h]

/-! The core-0 reporting loop.  `loop()` drains the display queue, then walks
the detection flags in a fixed order, printing a notification and clearing the
detection flag for each; WRITING, DELETING and the HID message additionally
latch a `*_reported` flag that is never cleared again, so they print at most
once.  Each flag test below is one `if` block of `loop()`, in source order. -/

def loopKiller (st : SysState) : SysState × List String :=
  if st.usbkiller then ({ st with usbkiller := false }, ["\n[!!] USB Killer"])
  else (st, [])

def loopReadme (st : SysState) : SysState × List String :=
  if st.readme then ({ st with readme := false }, ["\n[!] README (R)"])
  else (st, [])

def loopAutorun (st : SysState) : SysState × List String :=
  if st.autorun then ({ st with autorun := false }, ["\n[+] AUTORUN (R)"])
  else (st, [])

def loopDeleted (st : SysState) : SysState × List String :=
  if st.deleted && !st.deleted_reported then
    ({ st with deleted := false, deleted_reported := true }, ["\n[!] DELETING"])
  else (st, [])

def loopWritten (st : SysState) : SysState × List String :=
  if st.written && !st.written_reported then
    ({ st with written := false, written_reported := true }, ["\n[!] WRITING"])
  else (st, [])

def loopHid (st : SysState) : SysState × List String :=
  if st.hid_sent && !st.hid_reported then
    ({ st with hid_sent := false, hid_reported := true }, ["\n[!!] HID Sending data"])
  else (st, [])

/-- One iteration of `loop()`: the six flag blocks in source order, collecting
the printed notifications. -/
def loopIter (st : SysState) : SysState × List String :=
  let r1 := loopKiller st
  let r2 := loopReadme r1.1
  let r3 := loopAutorun r2.1
  let r4 := loopDeleted r3.1
  let r5 := loopWritten r4.1
  let r6 := loopHid r5.1
  (r6.1, r1.2 ++ r2.2 ++ r3.2 ++ r4.2 ++ r5.2 ++ r6.2)

/-- An observable event of an execution: an MSC read or write request serviced
by the callbacks (core 0 USB task), the USB-killer interrupt, a received HID
report (which sets `hid_sent`), or one iteration of the reporting `loop()`. -/
inductive Ev where
  | read (lba : Nat) (buffer : Nat → Nat) (bufsize : Nat)
  | write (lba : Nat) (buffer : Nat → Nat) (bufsize : Nat)
  | killer
  | hidReport
  | tick

/-- Effect of one event on the globals, together with the notifications it
prints. -/
def step (st : SysState) : Ev → SysState × List String
  | .read lba b n => ((msc_read_callback st lba b n).st, [])
  | .write lba b n => ((msc_write_callback st lba b n).st, [])
  | .killer => ({ st with usbkiller := true }, [])
  | .hidReport => ({ st with hid_sent := true }, [])
  | .tick => loopIter st

/-- Run a whole event trace, concatenating the printed notifications. -/
def run (st : SysState) : List Ev → SysState × List String
  | [] => (st, [])
  | e :: es => ((run (step st e).1 es).1, (step st e).2 ++ (run (step st e).1 es).2)

/-- Number of occurrences of the notification `s` in an output list. -/
def countMsg (s : String) (out : List String) : Nat :=
  (out.filter (fun t => t == s)).length

lemma countMsg_append (s : String) (a b : List String) :
    countMsg s (a ++ b) = countMsg s a + countMsg s b := by
  simp [countMsg, List.filter_append]

/-- Budget of WRITING notifications still available: 1 until the latch
`written_reported` is set, 0 afterwards. -/
def wCredit (st : SysState) : Nat := if st.written_reported then 0 else 1

/-- Budget of DELETING notifications still available. -/
def dCredit (st : SysState) : Nat := if st.deleted_reported then 0 else 1

lemma wCredit_congr {s t : SysState} (h : s.written_reported = t.written_reported) :
    wCredit s = wCredit t := by simp [wCredit, h]

lemma dCredit_congr {s t : SysState} (h : s.deleted_reported = t.deleted_reported) :
    dCredit s = dCredit t := by simp [dCredit, h]

lemma loopKiller_pres (st : SysState) :
    (loopKiller st).1.written_reported = st.written_reported ∧
    (loopKiller st).1.deleted_reported = st.deleted_reported ∧
    countMsg "\n[!] WRITING" (loopKiller st).2 = 0 ∧
    countMsg "\n[!] DELETING" (loopKiller st).2 = 0 := by
  unfold loopKiller
  split <;> exact ⟨rfl, rfl, by rfl, by rfl⟩

lemma loopReadme_pres (st : SysState) :
    (loopReadme st).1.written_reported = st.written_reported ∧
    (loopReadme st).1.deleted_reported = st.deleted_reported ∧
    countMsg "\n[!] WRITING" (loopReadme st).2 = 0 ∧
    countMsg "\n[!] DELETING" (loopReadme st).2 = 0 := by
  unfold loopReadme
  split <;> exact ⟨rfl, rfl, by rfl, by rfl⟩

lemma loopAutorun_pres (st : SysState) :
    (loopAutorun st).1.written_reported = st.written_reported ∧
    (loopAutorun st).1.deleted_reported = st.deleted_reported ∧
    countMsg "\n[!] WRITING" (loopAutorun st).2 = 0 ∧
    countMsg "\n[!] DELETING" (loopAutorun st).2 = 0 := by
  unfold loopAutorun
  split <;> exact ⟨rfl, rfl, by rfl, by rfl⟩

lemma loopHid_pres (st : SysState) :
    (loopHid st).1.written_reported = st.written_reported ∧
    (loopHid st).1.deleted_reported = st.deleted_reported ∧
    countMsg "\n[!] WRITING" (loopHid st).2 = 0 ∧
    countMsg "\n[!] DELETING" (loopHid st).2 = 0 := by
  unfold loopHid
  split <;> exact ⟨rfl, rfl, by rfl, by rfl⟩

lemma loopDeleted_pres (st : SysState) :
    (loopDeleted st).1.written_reported = st.written_reported ∧
    countMsg "\n[!] WRITING" (loopDeleted st).2 = 0 ∧
    countMsg "\n[!] DELETING" (loopDeleted st).2 + dCredit (loopDeleted st).1
      ≤ dCredit st := by
  unfold loopDeleted
  split <;> rename_i h
  · refine ⟨rfl, by rfl, ?_⟩
    have hd : st.deleted_reported = false := by
      cases hw : st.deleted_reported <;> simp [hw] at h ⊢
    have c1 : countMsg "\n[!] DELETING" ["\n[!] DELETING"] = 1 := rfl
    simp [dCredit, hd, c1]
  · have c0 : countMsg "\n[!] DELETING" ([] : List String) = 0 := rfl
    exact ⟨rfl, by rfl, by simp [dCredit, c0]⟩

lemma loopWritten_pres (st : SysState) :
    (loopWritten st).1.deleted_reported = st.deleted_reported ∧
    countMsg "\n[!] DELETING" (loopWritten st).2 = 0 ∧
    countMsg "\n[!] WRITING" (loopWritten st).2 + wCredit (loopWritten st).1
      ≤ wCredit st := by
  unfold loopWritten
  split <;> rename_i h
  · refine ⟨rfl, by rfl, ?_⟩
    have hw : st.written_reported = false := by
      cases hw : st.written_reported <;> simp [hw] at h ⊢
    have c1 : countMsg "\n[!] WRITING" ["\n[!] WRITING"] = 1 := rfl
    simp [wCredit, hw, c1]
  · have c0 : countMsg "\n[!] WRITING" ([] : List String) = 0 := rfl
    exact ⟨rfl, by rfl, by simp [wCredit, c0]⟩

lemma loopIter_wCredit (st : SysState) :
    countMsg "\n[!] WRITING" (loopIter st).2 + wCredit (loopIter st).1
      ≤ wCredit st := by
  have h1 := loopKiller_pres st
  have h2 := loopReadme_pres (loopKiller st).1
  have h3 := loopAutorun_pres (loopReadme (loopKiller st).1).1
  have h4 := loopDeleted_pres (loopAutorun (loopReadme (loopKiller st).1).1).1
  have h5 := loopWritten_pres
    (loopDeleted (loopAutorun (loopReadme (loopKiller st).1).1).1).1
  have h6 := loopHid_pres
    (loopWritten (loopDeleted (loopAutorun (loopReadme (loopKiller st).1).1).1).1).1
  have e4 : wCredit (loopDeleted (loopAutorun (loopReadme (loopKiller st).1).1).1).1
      = wCredit st :=
    wCredit_congr (by rw [h4.1, h3.1, h2.1, h1.1])
  have e6 : wCredit (loopIter st).1
      = wCredit (loopWritten
          (loopDeleted (loopAutorun (loopReadme (loopKiller st).1).1).1).1).1 := by
    unfold loopIter
    exact wCredit_congr h6.1
  have hout : countMsg "\n[!] WRITING" (loopIter st).2
      = countMsg "\n[!] WRITING"
          (loopWritten
            (loopDeleted (loopAutorun (loopReadme (loopKiller st).1).1).1).1).2 := by
    unfold loopIter
    simp only [countMsg_append, h1.2.2.1, h2.2.2.1, h3.2.2.1, h4.2.1, h6.2.2.1]
    omega
  rw [hout, e6, ← e4]
  exact h5.2.2

lemma loopIter_dCredit (st : SysState) :
    countMsg "\n[!] DELETING" (loopIter st).2 + dCredit (loopIter st).1
      ≤ dCredit st := by
  have h1 := loopKiller_pres st
  have h2 := loopReadme_pres (loopKiller st).1
  have h3 := loopAutorun_pres (loopReadme (loopKiller st).1).1
  have h4 := loopDeleted_pres (loopAutorun (loopReadme (loopKiller st).1).1).1
  have h5 := loopWritten_pres
    (loopDeleted (loopAutorun (loopReadme (loopKiller st).1).1).1).1
  have h6 := loopHid_pres
    (loopWritten (loopDeleted (loopAutorun (loopReadme (loopKiller st).1).1).1).1).1
  have e3 : dCredit (loopAutorun (loopReadme (loopKiller st).1).1).1 = dCredit st :=
    dCredit_congr (by rw [h3.2.1, h2.2.1, h1.2.1])
  have e6 : dCredit (loopIter st).1
      = dCredit (loopDeleted (loopAutorun (loopReadme (loopKiller st).1).1).1).1 := by
    unfold loopIter
    exact dCredit_congr (by rw [h6.2.1, h5.1])
  have hout : countMsg "\n[!] DELETING" (loopIter st).2
      = countMsg "\n[!] DELETING"
          (loopDeleted (loopAutorun (loopReadme (loopKiller st).1).1).1).2 := by
    unfold loopIter
    simp only [countMsg_append, h1.2.2.2, h2.2.2.2, h3.2.2.2, h5.2.1, h6.2.2.2]
    omega
  rw [hout, e6, ← e3]
  exact h4.2.2

lemma msc_read_callback_pres (st : SysState) (lba : Nat) (b : Nat → Nat) (n : Nat) :
    (msc_read_callback st lba b n).st.written_reported = st.written_reported ∧
    (msc_read_callback st lba b n).st.deleted_reported = st.deleted_reported := by
  simp only [msc_read_callback]
  constructor <;> (split <;> split <;> rfl)

lemma msc_write_callback_pres (st : SysState) (lba : Nat) (b : Nat → Nat) (n : Nat) :
    (msc_write_callback st lba b n).st.written_reported = st.written_reported ∧
    (msc_write_callback st lba b n).st.deleted_reported = st.deleted_reported := by
  simp only [msc_write_callback]
  constructor <;> (split <;> split <;> split <;> rfl)

lemma step_wCredit (st : SysState) (e : Ev) :
    countMsg "\n[!] WRITING" (step st e).2 + wCredit (step st e).1 ≤ wCredit st := by
  cases e with
  | read lba b n =>
    have := (msc_read_callback_pres st lba b n).1
    simp only [step]
    rw [wCredit_congr this]
    simp [countMsg]
  | write lba b n =>
    have := (msc_write_callback_pres st lba b n).1
    simp only [step]
    rw [wCredit_congr this]
    simp [countMsg]
  | killer => simp [step, countMsg, wCredit]
  | hidReport => simp [step, countMsg, wCredit]
  | tick => exact loopIter_wCredit st

lemma step_dCredit (st : SysState) (e : Ev) :
    countMsg "\n[!] DELETING" (step st e).2 + dCredit (step st e).1 ≤ dCredit st := by
  cases e with
  | read lba b n =>
    have := (msc_read_callback_pres st lba b n).2
    simp only [step]
    rw [dCredit_congr this]
    simp [countMsg]
  | write lba b n =>
    have := (msc_write_callback_pres st lba b n).2
    simp only [step]
    rw [dCredit_congr this]
    simp [countMsg]
  | killer => simp [step, countMsg, dCredit]
  | hidReport => simp [step, countMsg, dCredit]
  | tick => exact loopIter_dCredit st

lemma run_wCredit (evs : List Ev) : ∀ st : SysState,
    countMsg "\n[!] WRITING" (run st evs).2 ≤ wCredit st := by
  induction evs with
  | nil => intro st; simp [run, countMsg, wCredit]
  | cons e es ih =>
    intro st
    have h1 := step_wCredit st e
    have h2 := ih (step st e).1
    simp only [run, countMsg_append]
    omega

lemma run_dCredit (evs : List Ev) : ∀ st : SysState,
    countMsg "\n[!] DELETING" (run st evs).2 ≤ dCredit st := by
  induction evs with
  | nil => intro st; simp [run, countMsg, dCredit]
  | cons e es ih =>
    intro st
    have h1 := step_dCredit st e
    have h2 := ih (step st e).1
    simp only [run, countMsg_append]
    omega

/-- A concrete trace reading the README bait block twice, with a loop
iteration after each read. -/
def readmeTwice : List Ev :=
  [Ev.read BLOCK_README zeroBuf 512, Ev.tick,
   Ev.read BLOCK_README zeroBuf 512, Ev.tick]

/-- C10: on every execution from power-on (every event trace from the initial
state), the "[!] WRITING" notification and the "[!] DELETING" notification
are each printed at most once, because the `written_reported` /
`deleted_reported` latches are never cleared; in contrast, the README
bait-read notification recurs — the concrete trace reading block
`BLOCK_README` twice prints it twice. -/
theorem report_latch_once (disk0 : Nat → Nat) (evs : List Ev) :
    countMsg "\n[!] WRITING" (run (initState disk0) evs).2 ≤ 1 ∧
    countMsg "\n[!] DELETING" (run (initState disk0) evs).2 ≤ 1 ∧
    countMsg "\n[!] README (R)" (run (initState diskOnes) readmeTwice).2 = 2 := by
  refine ⟨?_, ?_, ?_⟩
  · have := run_wCredit evs (initState disk0)
    simpa [initState, wCredit] using this
  · have := run_dCredit evs (initState disk0)
    simpa [initState, dCredit] using this
  · decide

/-! UTF-16LE to UTF-8 string-descriptor decoder.  `utf16_to_utf8(temp_buf,
buf_len)` converts in place: it takes the descriptor length from the low byte
of the first 16-bit word, derives the code-unit count, converts via
`_convert_utf16le_to_utf8` (whose `utf8_len` parameter is explicitly ignored:
`(void) utf8_len;` under a `TODO: Check for runover.`), and stores a null
terminator at the computed UTF-8 length.  `size_t` is 32 bits on the RP2040,
so the `- 2` in the length derivation wraps modulo `2 ^ 32`.

Two models follow.  The first is an alias-free size abstraction: it encodes
the original code units, ignoring that the conversion writes into the very
buffer it is reading.  Its byte values can diverge from the program once the
write position overtakes the read position, but its null offset is computed
from the pre-conversion units exactly as `_count_utf8_bytes` does, and on
`overlongBuf` its byte count agrees with the byte-exact execution (every unit
there, original or clobbered, has a high byte ≥ 0x08 and so emits 3 bytes;
`utf16_overflow_in_place_agrees` checks this against the second model).  The
second model, `utf16_to_utf8_mem`, is byte-exact: a byte-addressed store in
which the UTF-8 bytes are written from offset 0 while 16-bit code units are
still being read from offset 2 on, reproducing the in-place aliasing. -/

/-- The bytes `_convert_utf16le_to_utf8` emits for one UTF-16 code unit:
1 byte below 0x80, 2 bytes below 0x800, else 3 bytes (no surrogate pairs). -/
def utf8EncodeUnit (chr : Nat) : List Nat :=
  if chr < 0x80 then [chr &&& 0xff]
  else if chr < 0x800 then
    [0xC0 ||| ((chr >>> 6) &&& 0x1F), 0x80 ||| (chr &&& 0x3F)]
  else
    [0xE0 ||| ((chr >>> 12) &&& 0x0F), 0x80 ||| ((chr >>> 6) &&& 0x3F),
     0x80 ||| (chr &&& 0x3F)]

/-- `_convert_utf16le_to_utf8(utf16, utf16_len, utf8, utf8_len)`: the bytes
written to the destination, at consecutive offsets starting from 0.  The
destination capacity `utf8_len` is discarded (`(void) utf8_len;`), so nothing
bounds the output. -/
def convert_utf16le_to_utf8 (utf16 : Nat → Nat) (utf16_len : Nat) : List Nat :=
  ((List.range utf16_len).map (fun i => utf8EncodeUnit (utf16 i))).join

/-- `_count_utf8_bytes(buf, len)`: how many bytes the UTF-8 encoding takes. -/
def count_utf8_bytes (buf : Nat → Nat) (len : Nat) : Nat :=
  (List.range len).foldl
    (fun total i =>
      total + (if buf i < 0x80 then 1 else if buf i < 0x800 then 2 else 3)) 0

/-- `utf16_to_utf8(temp_buf, buf_len)` as the alias-free size abstraction:
the per-original-unit encoding stream and the offset at which the null
terminator is stored (the program computes that offset from the
pre-conversion units, exactly as here).  `buf_len` is passed down but never
used as a bound.  The byte-exact in-place semantics is `utf16_to_utf8_mem`
below. -/
def utf16_to_utf8 (temp_buf : Nat → Nat) (buf_len : Nat) : List Nat × Nat :=
  let utf16_len := (((temp_buf 0 &&& 0xff) + (2 ^ 32 - 2)) % 2 ^ 32) / 2
  let utf8_len := count_utf8_bytes (fun i => temp_buf (i + 1)) utf16_len
  (convert_utf16le_to_utf8 (fun i => temp_buf (i + 1)) utf16_len, utf8_len)

/-- A malformed descriptor: length byte 0xFF (descriptor type 0x03 in the high
byte), every following 16-bit word the CJK code unit 0x4E2D. -/
def overlongBuf : Nat → Nat := fun i => if i = 0 then 0x03FF else 0x4E2D

lemma count_utf8_bytes_eq_length (f : Nat → Nat) (n : Nat) :
    count_utf8_bytes f n = (convert_utf16le_to_utf8 f n).length := by
  induction n with
  | zero => rfl
  | succ k ih =>
    have henc : (if f k < 0x80 then 1 else if f k < 0x800 then 2 else 3)
        = (utf8EncodeUnit (f k)).length := by
      unfold utf8EncodeUnit
      split_ifs <;> rfl
    simp only [count_utf8_bytes, convert_utf16le_to_utf8, List.range_succ,
      List.foldl_append, List.map_append, List.join_append] at ih ⊢
    simp [ih, count_utf8_bytes, convert_utf16le_to_utf8, henc]

set_option maxRecDepth 4000 in
/-- C5 divergence witness: on the malformed descriptor `overlongBuf` with the
64-byte destination used for the manufacturer string, `utf16_to_utf8` derives
126 code units from the oversized length byte, emits 378 bytes, and stores the
null terminator at offset 378 — far past the 64-byte destination, with no
truncation anywhere. -/
theorem utf16_overflow_failing_input :
    (utf16_to_utf8 overlongBuf 64).1.length = 378 ∧
    (utf16_to_utf8 overlongBuf 64).2 = 378 ∧
    64 < 378 := by
  refine ⟨?_, ?_, by decide⟩ <;> decide

/-! Byte-exact in-place model of `utf16_to_utf8`.  The store is byte
addressed (`% 256` expresses the one-byte width of a cell); `temp_buf[i]` is
the little-endian 16-bit word at byte offset `2 * i`.  The conversion writes
UTF-8 bytes from offset 0 while it is still reading code units from offset 2
on, so with 3-byte emissions the write position can overtake the read
position and later units are read from already-rewritten bytes. -/

/-- A `uint16_t` read of two bytes of the store, little-endian. -/
def readUnit (mem : Nat → Nat) (a : Nat) : Nat :=
  mem a % 256 + 256 * (mem (a + 1) % 256)

/-- Store a list of bytes at consecutive offsets starting at `w`. -/
def writeBytes (mem : Nat → Nat) (w : Nat) (bytes : List Nat) : Nat → Nat :=
  fun a => if w ≤ a ∧ a < w + bytes.length then bytes.getD (a - w) 0 else mem a

/-- The loop of `_convert_utf16le_to_utf8` with the aliasing of the in-place
call made explicit: read the next code unit at byte offset `r` of the store,
write its encoding at byte offset `w` of the same store, advance and continue
with the remaining unit count. -/
def convert_loop (mem : Nat → Nat) (r w : Nat) : Nat → (Nat → Nat) × Nat
  | 0 => (mem, w)
  | n + 1 =>
    convert_loop (writeBytes mem w (utf8EncodeUnit (readUnit mem r))) (r + 2)
      (w + (utf8EncodeUnit (readUnit mem r)).length) n

/-- `utf16_to_utf8(temp_buf, buf_len)` at byte level: the descriptor length is
the low byte of the word at offset 0 (`temp_buf[0] & 0xff`); the unit count
and the null offset `utf8_len` are computed from the original bytes before the
conversion runs (`_count_utf8_bytes` executes first); the conversion then
rewrites the same store in place, and the null terminator lands at
`utf8_len`. -/
def utf16_to_utf8_mem (mem : Nat → Nat) (buf_len : Nat) : (Nat → Nat) × Nat :=
  let utf16_len := (((readUnit mem 0 &&& 0xff) + (2 ^ 32 - 2)) % 2 ^ 32) / 2
  let utf8_len := count_utf8_bytes (fun i => readUnit mem (2 + 2 * i)) utf16_len
  (writeBytes (convert_loop mem 2 0 utf16_len).1 utf8_len [0], utf8_len)

/-- The byte store of the "AB" descriptor: length byte 6, descriptor type
0x03, then the UTF-16LE words 0x0041 and 0x0042. -/
def abMem : Nat → Nat := fun a =>
  if a = 0 then 0x06 else if a = 1 then 0x03 else
  if a = 2 then 0x41 else if a = 4 then 0x42 else 0

/-- The byte store of a well-formed four-unit CJK descriptor: length byte 10,
descriptor type 0x03, then four UTF-16LE words 0x4E2D. -/
def cjkMem : Nat → Nat := fun a =>
  if a = 0 then 0x0A else if a = 1 then 0x03 else
  if 2 ≤ a ∧ a ≤ 9 then (if a % 2 = 0 then 0x2D else 0x4E) else 0

/-- The byte store behind `overlongBuf`: length byte 0xFF, descriptor type
0x03, every following word 0x4E2D. -/
def overlongMem : Nat → Nat := fun a =>
  if a = 0 then 0xFF else if a = 1 then 0x03 else
  if a % 2 = 0 then 0x2D else 0x4E

lemma writeBytes_nil (mem : Nat → Nat) (w : Nat) : writeBytes mem w [] = mem := by
  funext a
  simp only [writeBytes, List.length_nil]
  rw [if_neg (by omega)]

lemma writeBytes_out (mem : Nat → Nat) (w : Nat) (bytes : List Nat) (a : Nat)
    (h : a < w ∨ w + bytes.length ≤ a) : writeBytes mem w bytes a = mem a := by
  simp only [writeBytes]
  rw [if_neg (by omega)]

lemma readUnit_writeBytes_ge (mem : Nat → Nat) (w : Nat) (bytes : List Nat)
    (a : Nat) (h : w + bytes.length ≤ a) :
    readUnit (writeBytes mem w bytes) a = readUnit mem a := by
  unfold readUnit
  rw [writeBytes_out _ _ _ _ (Or.inr h), writeBytes_out _ _ _ _ (Or.inr (by omega))]

lemma writeBytes_append (mem : Nat → Nat) (w : Nat) (b1 b2 : List Nat) :
    writeBytes (writeBytes mem w b1) (w + b1.length) b2
      = writeBytes mem w (b1 ++ b2) := by
  funext a
  simp only [writeBytes, List.length_append]
  by_cases h1 : w ≤ a ∧ a < w + b1.length
  · rw [if_neg (by omega), if_pos h1, if_pos (by omega)]
    exact (List.getD_append b1 b2 0 (a - w) (by omega)).symm
  · by_cases h2 : w + b1.length ≤ a ∧ a < w + (b1.length + b2.length)
    · rw [if_pos (by omega), if_pos (by omega),
        List.getD_append_right b1 b2 0 (a - w) (by omega)]
      congr 1
      omega
    · rw [if_neg (by omega), if_neg h1, if_neg (by omega)]

lemma utf8EncodeUnit_length_le_two (c : Nat) (h : c < 0x800) :
    (utf8EncodeUnit c).length ≤ 2 := by
  unfold utf8EncodeUnit
  split_ifs <;> simp

lemma convert_loop_no_overtake (n : Nat) :
    ∀ (mem : Nat → Nat) (r w : Nat), w ≤ r →
    (∀ i, i < n → readUnit mem (r + 2 * i) < 0x800) →
    convert_loop mem r w n
      = (writeBytes mem w
          (((List.range n).map (fun i => utf8EncodeUnit (readUnit mem (r + 2 * i)))).join),
         w + (((List.range n).map
            (fun i => utf8EncodeUnit (readUnit mem (r + 2 * i)))).join).length) := by
  induction n with
  | zero =>
    intro mem r w _ _
    simp [convert_loop, writeBytes_nil]
  | succ k ih =>
    intro mem r w hw hu
    have h0 : readUnit mem r < 0x800 := by
      have := hu 0 (Nat.succ_pos k)
      simpa using this
    have hlen : (utf8EncodeUnit (readUnit mem r)).length ≤ 2 :=
      utf8EncodeUnit_length_le_two _ h0
    have hpres : ∀ i, i < k →
        readUnit (writeBytes mem w (utf8EncodeUnit (readUnit mem r))) (r + 2 + 2 * i)
          = readUnit mem (r + 2 + 2 * i) := by
      intro i hi
      exact readUnit_writeBytes_ge _ _ _ _ (by omega)
    have hu' : ∀ i, i < k →
        readUnit (writeBytes mem w (utf8EncodeUnit (readUnit mem r)))
          (r + 2 + 2 * i) < 0x800 := by
      intro i hi
      rw [hpres i hi, show r + 2 + 2 * i = r + 2 * (i + 1) from by ring]
      exact hu (i + 1) (by omega)
    have hrec := ih (writeBytes mem w (utf8EncodeUnit (readUnit mem r))) (r + 2)
      (w + (utf8EncodeUnit (readUnit mem r)).length) (by omega) hu'
    have hmapeq : (List.range k).map (fun i => utf8EncodeUnit
          (readUnit (writeBytes mem w (utf8EncodeUnit (readUnit mem r))) (r + 2 + 2 * i)))
        = (List.range k).map (fun i => utf8EncodeUnit (readUnit mem (r + 2 + 2 * i))) := by
      apply List.map_congr_left
      intro i hi
      rw [hpres i (List.mem_range.mp hi)]
    have hsplit : ((List.range (k + 1)).map
          (fun i => utf8EncodeUnit (readUnit mem (r + 2 * i)))).join
        = utf8EncodeUnit (readUnit mem r)
            ++ ((List.range k).map
                (fun i => utf8EncodeUnit (readUnit mem (r + 2 + 2 * i)))).join := by
      simp only [List.range_succ_eq_map, List.map_cons, List.join_cons, List.map_map]
      have hcomp : ((fun i => utf8EncodeUnit (readUnit mem (r + 2 * i))) ∘ Nat.succ)
          = (fun i => utf8EncodeUnit (readUnit mem (r + 2 + 2 * i))) := by
        funext i
        simp only [Function.comp_apply, Nat.succ_eq_add_one]
        rw [show r + 2 * (i + 1) = r + 2 + 2 * i from by ring]
      rw [hcomp]
      norm_num
    rw [show convert_loop mem r w (k + 1)
        = convert_loop (writeBytes mem w (utf8EncodeUnit (readUnit mem r))) (r + 2)
            (w + (utf8EncodeUnit (readUnit mem r)).length) k from rfl]
    rw [hrec, hmapeq, hsplit, writeBytes_append]
    simp [List.length_append]
    omega

set_option maxRecDepth 8000 in
/-- The size facts of `utf16_overflow_failing_input` checked against the
byte-exact in-place model: on the `overlongBuf` byte store the conversion
advances the write position to 378 (every unit, original or clobbered, has a
high byte ≥ 0x08 and so emits 3 bytes) and stores the null terminator at
offset 378, past the 64-byte destination. -/
lemma utf16_overflow_in_place_agrees :
    (convert_loop overlongMem 2 0 126).2 = 378 ∧
    (utf16_to_utf8_mem overlongMem 64).2 = 378 := by
  constructor <;> decide

/-- C6 counterexample: on the well-formed four-unit CJK descriptor `cjkMem`
(length byte 10, four units 0x4E2D), the in-place conversion clobbers the
fourth unit before reading it — the third unit's bytes land at offsets 6..8
and offset 8 is the fourth unit's low byte — so the program's output byte at
offset 10 is 0xBA, while the claimed per-unit encoding of the buffer's code
units has 0xB8 there. -/
theorem utf16_in_place_cex :
    2 ≤ readUnit cjkMem 0 &&& 0xff ∧
    ((readUnit cjkMem 0 &&& 0xff) - 2) / 2 = 4 ∧
    (utf16_to_utf8_mem cjkMem 96).1 10 = 0xBA ∧
    (((List.range 4).map
        (fun i => utf8EncodeUnit (readUnit cjkMem (2 + 2 * i)))).join).getD 10 0 = 0xB8 ∧
    ¬ ((utf16_to_utf8_mem cjkMem 96).1 10
        = (((List.range 4).map
            (fun i => utf8EncodeUnit (readUnit cjkMem (2 + 2 * i)))).join).getD 10 0) := by
  refine ⟨?_, ?_, ?_, ?_, ?_⟩ <;> decide

/-- C6 (amended): `utf16_to_utf8` reads the descriptor length from the low
byte of the first word and takes `(length - 2) / 2` code units; each unit read
encodes to 1 byte below 0x80, 2 bytes below 0x800 and 3 bytes otherwise (no
surrogate pairs), and the null terminator is stored at the UTF-8 length
precomputed from the original units — but the conversion is in place, so the
per-unit description applies to the original code units only while the write
position never overtakes the read position.  Whenever every code unit is
below 0x800 (at most 2 bytes per unit, so no overtaking), the bytes below the
null terminator are exactly the concatenated per-unit encodings of the
original units and the terminator sits right after them; in particular the
"AB" descriptor with length byte 6 decodes to the bytes of "AB" followed by
the null terminator at offset 2. -/
theorem utf16_in_place_decodes (mem : Nat → Nat) (bl : Nat)
    (h2 : 2 ≤ readUnit mem 0 &&& 0xff)
    (hsmall : ∀ i, i < ((readUnit mem 0 &&& 0xff) - 2) / 2 →
      readUnit mem (2 + 2 * i) < 0x800) :
    (∀ a, a < (utf16_to_utf8_mem mem bl).2 →
      (utf16_to_utf8_mem mem bl).1 a
        = (((List.range (((readUnit mem 0 &&& 0xff) - 2) / 2)).map
            (fun i => utf8EncodeUnit (readUnit mem (2 + 2 * i)))).join).getD a 0) ∧
    (utf16_to_utf8_mem mem bl).1 ((utf16_to_utf8_mem mem bl).2) = 0 ∧
    (utf16_to_utf8_mem mem bl).2
      = (((List.range (((readUnit mem 0 &&& 0xff) - 2) / 2)).map
          (fun i => utf8EncodeUnit (readUnit mem (2 + 2 * i)))).join).length ∧
    (∀ c, c < 0x80 → (utf8EncodeUnit c).length = 1) ∧
    (∀ c, 0x80 ≤ c → c < 0x800 → (utf8EncodeUnit c).length = 2) ∧
    (∀ c, 0x800 ≤ c → (utf8EncodeUnit c).length = 3) ∧
    (utf16_to_utf8_mem abMem 96).1 0 = 0x41 ∧
    (utf16_to_utf8_mem abMem 96).1 1 = 0x42 ∧
    (utf16_to_utf8_mem abMem 96).1 2 = 0 ∧
    (utf16_to_utf8_mem abMem 96).2 = 2 := by
  have hmask : readUnit mem 0 &&& 0xff ≤ 0xff := Nat.and_le_right
  have hwrap : ((readUnit mem 0 &&& 0xff) + (2 ^ 32 - 2)) % 2 ^ 32
      = (readUnit mem 0 &&& 0xff) - 2 := by omega
  have hloop := convert_loop_no_overtake (((readUnit mem 0 &&& 0xff) - 2) / 2)
    mem 2 0 (by omega) (fun i hi => by
      have := hsmall i hi
      rwa [show (2:Nat) + 2 * i = 2 + 2 * i from rfl] at this)
  have hcount : count_utf8_bytes (fun i => readUnit mem (2 + 2 * i))
        (((readUnit mem 0 &&& 0xff) - 2) / 2)
      = (((List.range (((readUnit mem 0 &&& 0xff) - 2) / 2)).map
          (fun i => utf8EncodeUnit (readUnit mem (2 + 2 * i)))).join).length := by
    rw [count_utf8_bytes_eq_length]
    rfl
  have hres : utf16_to_utf8_mem mem bl
      = (writeBytes
          (writeBytes mem 0
            (((List.range (((readUnit mem 0 &&& 0xff) - 2) / 2)).map
              (fun i => utf8EncodeUnit (readUnit mem (2 + 2 * i)))).join))
          ((((List.range (((readUnit mem 0 &&& 0xff) - 2) / 2)).map
              (fun i => utf8EncodeUnit (readUnit mem (2 + 2 * i)))).join).length)
          [0],
         (((List.range (((readUnit mem 0 &&& 0xff) - 2) / 2)).map
            (fun i => utf8EncodeUnit (readUnit mem (2 + 2 * i)))).join).length) := by
    simp only [utf16_to_utf8_mem, hwrap, hcount, hloop]
  have hres1 : (utf16_to_utf8_mem mem bl).1
      = writeBytes
          (writeBytes mem 0
            (((List.range (((readUnit mem 0 &&& 0xff) - 2) / 2)).map
              (fun i => utf8EncodeUnit (readUnit mem (2 + 2 * i)))).join))
          ((((List.range (((readUnit mem 0 &&& 0xff) - 2) / 2)).map
              (fun i => utf8EncodeUnit (readUnit mem (2 + 2 * i)))).join).length)
          [0] := by
    rw [hres]
  have hres2 : (utf16_to_utf8_mem mem bl).2
      = (((List.range (((readUnit mem 0 &&& 0xff) - 2) / 2)).map
          (fun i => utf8EncodeUnit (readUnit mem (2 + 2 * i)))).join).length := by
    rw [hres]
  refine ⟨?_, ?_, hres2, ?_, ?_, ?_, by decide, by decide, by decide, by decide⟩
  · intro a ha
    rw [hres2] at ha
    rw [hres1, writeBytes_out _ _ _ _ (Or.inl ha)]
    simp only [writeBytes]
    rw [if_pos ⟨Nat.zero_le a, by omega⟩]
    simp
  · rw [hres1, hres2]
    simp only [writeBytes]
    rw [if_pos (by simp)]
    simp
  · intro c hc
    simp [utf8EncodeUnit, hc]
  · intro c hc1 hc2
    rw [utf8EncodeUnit, if_neg (by omega), if_pos hc2]
    rfl
  · intro c hc
    rw [utf8EncodeUnit, if_neg (by omega), if_neg (by omega)]
    rfl

/-- C6 witness: the theorem instantiated on the concrete "AB" descriptor store
(its two units 0x41 and 0x42 are below 0x800, so the no-overtake hypothesis
holds), with the general byte identity applied at offset 0 and the per-unit
length rules evaluated at 0x41 (1 byte), 0x3B1 (2 bytes) and 0x4E2D (3
bytes). -/
theorem utf16_in_place_decodes_witness :
    2 ≤ readUnit abMem 0 &&& 0xff ∧
    (utf16_to_utf8_mem abMem 96).1 0 = 0x41 ∧
    (utf16_to_utf8_mem abMem 96).1 1 = 0x42 ∧
    (utf16_to_utf8_mem abMem 96).1 2 = 0 ∧
    (utf16_to_utf8_mem abMem 96).2 = 2 ∧
    (utf16_to_utf8_mem abMem 96).1 0
      = (((List.range (((readUnit abMem 0 &&& 0xff) - 2) / 2)).map
          (fun i => utf8EncodeUnit (readUnit abMem (2 + 2 * i)))).join).getD 0 0 ∧
    (utf8EncodeUnit 0x41).length = 1 ∧
    (utf8EncodeUnit 0x3B1).length = 2 ∧
    (utf8EncodeUnit 0x4E2D).length = 3 := by
  have H := utf16_in_place_decodes abMem 96 (by decide)
    (by intro i hi
        have hb : ((readUnit abMem 0 &&& 0xff) - 2) / 2 = 2 := by decide
        rw [hb] at hi
        interval_cases i <;> decide)
  exact ⟨by decide, H.2.2.2.2.2.2.1, H.2.2.2.2.2.2.2.1, H.2.2.2.2.2.2.2.2.1,
    H.2.2.2.2.2.2.2.2.2, H.1 0 (by decide), H.2.2.2.1 0x41 (by decide),
    H.2.2.2.2.1 0x3B1 (by decide) (by decide), H.2.2.2.2.2.1 0x4E2D (by decide)⟩

/-! HID keyboard monitoring.  `tuh_hid_report_received_cb` increments the
global `hid_event_num` once per received report and hands keyboard reports to
`process_kbd_report`, which diffs the current report against the previous one
and prints, for each fresh key press, the GUI and ALT modifier prefixes, any
special-key marker, and the shift-resolved character.  The printed text is
abstracted into `Token`s (the character token records the keycode and the
shift state used to index `keycode2ascii`, an external TinyUSB table). -/

def KEYBOARD_MODIFIER_LEFTCTRL : Nat := 0x01
def KEYBOARD_MODIFIER_LEFTSHIFT : Nat := 0x02
def KEYBOARD_MODIFIER_LEFTALT : Nat := 0x04
def KEYBOARD_MODIFIER_LEFTGUI : Nat := 0x08
def KEYBOARD_MODIFIER_RIGHTCTRL : Nat := 0x10
def KEYBOARD_MODIFIER_RIGHTSHIFT : Nat := 0x20
def KEYBOARD_MODIFIER_RIGHTALT : Nat := 0x40
def KEYBOARD_MODIFIER_RIGHTGUI : Nat := 0x80

/-- A TinyUSB keyboard report: modifier byte and six keycode slots. -/
structure hid_keyboard_report_t where
  modifier : Nat
  keycode : Fin 6 → Nat

/-- One element of the serial output of `process_kbd_report`: a `GUI+` or
`ALT+` prefix, a hypothetical `CTRL+` prefix (never produced by the code, kept
so its absence can be stated), a special-key marker, or the decoded character
for a keycode under the given shift state. -/
inductive Token where
  | gui
  | alt
  | ctrl
  | special (code : Nat)
  | chr (code : Nat) (shifted : Bool)
deriving DecidableEq

/-- `find_key_in_report`: is the keycode among the six slots of the report? -/
def find_key_in_report (report : hid_keyboard_report_t) (keycode : Nat) : Bool :=
  (List.finRange 6).any (fun i => report.keycode i == keycode)

/-- The keycodes for which `check_special_key` prints a marker (arrows, home,
keypad digits, F1-F12, print screen, scroll lock, pause, insert, page up/down,
delete, end, num lock, keypad operators and decimal). -/
def special_key_codes : List Nat :=
  [0x4F, 0x50, 0x51, 0x52, 0x4A,
   0x59, 0x5A, 0x5B, 0x5C, 0x5D, 0x5E, 0x5F, 0x60, 0x61, 0x62,
   0x3A, 0x3B, 0x3C, 0x3D, 0x3E, 0x3F, 0x40, 0x41, 0x42, 0x43, 0x44, 0x45,
   0x46, 0x47, 0x48, 0x49, 0x4B, 0x4C, 0x4D, 0x4E, 0x53,
   0x54, 0x55, 0x56, 0x57, 0x63]

/-- `check_special_key(code)`: the marker it prints, if any. -/
def check_special_key (code : Nat) : List Token :=
  if code ∈ special_key_codes then [Token.special code] else []

/-- The tokens printed for one fresh key press: `GUI+` and `ALT+` prefixes
when those modifier bits are set, the special-key marker, then the character
resolved through the shift-aware ASCII table. -/
def key_output (report : hid_keyboard_report_t) (code : Nat) : List Token :=
  let is_shift := report.modifier &&&
    (KEYBOARD_MODIFIER_LEFTSHIFT ||| KEYBOARD_MODIFIER_RIGHTSHIFT) != 0
  let is_gui := report.modifier &&&
    (KEYBOARD_MODIFIER_LEFTGUI ||| KEYBOARD_MODIFIER_RIGHTGUI) != 0
  let is_alt := report.modifier &&&
    (KEYBOARD_MODIFIER_LEFTALT ||| KEYBOARD_MODIFIER_RIGHTALT) != 0
  (if is_gui then [Token.gui] else []) ++
  (if is_alt then [Token.alt] else []) ++
  check_special_key code ++ [Token.chr code is_shift]

/-- `process_kbd_report(report)` with the static `prev_report` made explicit:
walks the six slots, emits `key_output` for every keycode present now but not
in the previous report, and finishes with `prev_report = *report`. -/
def process_kbd_report (prev report : hid_keyboard_report_t) :
    hid_keyboard_report_t × List Token :=
  (report,
   (List.finRange 6).foldl (fun acc i =>
     if report.keycode i != 0 then
       if find_key_in_report prev (report.keycode i) then acc
       else acc ++ key_output report (report.keycode i)
     else acc) [])

/-- The HID globals the report callback touches: the static `prev_report` of
`process_kbd_report` and the global `hid_event_num` counter. -/
structure HidState where
  prev_report : hid_keyboard_report_t
  hid_event_num : Nat

/-- The keyboard-protocol branch of `tuh_hid_report_received_cb`: processes
the report and increments `hid_event_num` once (the same `hid_event_num++`
runs in every branch of the protocol switch). -/
def tuh_hid_report_received_cb (st : HidState) (report : hid_keyboard_report_t) :
    HidState × List Token :=
  let pr := process_kbd_report st.prev_report report
  (⟨pr.1, st.hid_event_num + 1⟩, pr.2)

/-- Feed a list of keyboard reports through the callback. -/
def runHid (st : HidState) : List hid_keyboard_report_t → HidState × List Token
  | [] => (st, [])
  | r :: rs =>
    ((runHid (tuh_hid_report_received_cb st r).1 rs).1,
     (tuh_hid_report_received_cb st r).2 ++ (runHid (tuh_hid_report_received_cb st r).1 rs).2)

/-- Number of loop iterations of `process_kbd_report` that take the
fresh-press branch for this report against this previous report. -/
def freshPressCount (prev report : hid_keyboard_report_t) : Nat :=
  ((List.finRange 6).filter (fun i =>
    (report.keycode i != 0) && !(find_key_in_report prev (report.keycode i)))).length

/-- The keyboard report state before any report: `{ 0, 0, {0} }`. -/
def prev_report0 : hid_keyboard_report_t := ⟨0, ![0, 0, 0, 0, 0, 0]⟩

/-- HID globals at power-on. -/
def initHid : HidState := ⟨prev_report0, 0⟩

/-- A single-key report with the given modifier byte and one keycode. -/
def kr (m k : Nat) : hid_keyboard_report_t := ⟨m, ![k, 0, 0, 0, 0, 0]⟩

/-- A report with no modifier and two keycodes pressed at once. -/
def kr2 (k1 k2 : Nat) : hid_keyboard_report_t := ⟨0, ![k1, k2, 0, 0, 0, 0]⟩

/-- Three consecutive fresh presses with CTRL, one without, then one with. -/
def ctrlReports : List hid_keyboard_report_t :=
  [kr 0x01 4, kr 0x01 5, kr 0x01 6, kr 0 7, kr 0x01 8]

/-- C7 counterexample: on the concrete sequence of three fresh CTRL-bearing
presses, a press without CTRL, and a final CTRL-bearing press, the code never
prints a CTRL prefix at all — in particular the final press, which the claim
says shows the prefix again, emits only its bare character. -/
theorem ctrl_filter_cex :
    Token.ctrl ∉ (runHid initHid ctrlReports).2 ∧
    (process_kbd_report (kr 0 7) (kr 0x01 8)).2 = [Token.chr 8 false] := by
  constructor <;> decide

lemma ctrl_not_in_key_output (report : hid_keyboard_report_t) (code : Nat) :
    Token.ctrl ∉ key_output report code := by
  simp only [key_output, check_special_key]
  split_ifs <;> simp

lemma ctrl_not_in_fold (prev report : hid_keyboard_report_t) (l : List (Fin 6)) :
    ∀ acc : List Token, Token.ctrl ∉ acc →
    Token.ctrl ∉ l.foldl (fun acc i =>
      if report.keycode i != 0 then
        if find_key_in_report prev (report.keycode i) then acc
        else acc ++ key_output report (report.keycode i)
      else acc) acc := by
  induction l with
  | nil => intro acc h; simpa using h
  | cons i l ih =>
    intro acc h
    simp only [List.foldl_cons]
    apply ih
    split_ifs with h1 h2
    · exact h
    · simp only [List.mem_append, not_or]
      exact ⟨h, ctrl_not_in_key_output report (report.keycode i)⟩
    · exact h

/-- C7 (amended): `process_kbd_report` implements no spurious-CTRL filter:
it keeps no CTRL run counter (its only cross-report state is `prev_report`,
which becomes the current report), and its output never contains a CTRL
prefix, whatever the reports' modifiers and whatever the history — so a press
without CTRL changes nothing about how later CTRL-bearing presses print. -/
theorem process_kbd_no_ctrl_filter (prev report : hid_keyboard_report_t) :
    Token.ctrl ∉ (process_kbd_report prev report).2 ∧
    (process_kbd_report prev report).1 = report := by
  refine ⟨?_, rfl⟩
  simp only [process_kbd_report]
  exact ctrl_not_in_fold prev report (List.finRange 6) [] (by simp)

/-- C8 counterexample: a report whose six slots carry the two fresh keycodes
4 and 5 produces two fresh key presses but bumps `hid_event_num` only once,
so the counter does not equal the number of fresh key presses. -/
theorem hid_event_num_cex :
    (tuh_hid_report_received_cb initHid (kr2 4 5)).1.hid_event_num = 1 ∧
    freshPressCount prev_report0 (kr2 4 5) = 2 := by
  constructor <;> decide

/-- C8 (amended): `hid_event_num` counts received reports, not fresh key
presses: after any sequence of keyboard reports it has grown by exactly the
number of reports, regardless of how many fresh presses (zero to six) each
report contains. -/
theorem hid_event_num_counts_reports (reports : List hid_keyboard_report_t) :
    ∀ st : HidState,
    (runHid st reports).1.hid_event_num = st.hid_event_num + reports.length := by
  induction reports with
  | nil => intro st; simp [runHid]
  | cons r rs ih =>
    intro st
    simp only [runHid, ih, tuh_hid_report_received_cb, List.length_cons]
    omega

/-! Cross-core display queue.  `setup()` creates it with
`queue_init(&display_queue, sizeof(DisplayMsg), 16)`; `enqueue_display` copies
at most 63 characters of the text into a `DisplayMsg` (`strncpy(..., 63)` plus
a forced terminator at index 63) and calls the non-blocking pico-SDK
`queue_try_add`, whose documented semantics — append and return true when
below capacity, change nothing and return false when full — are modelled here
(the SDK implementation is external to the repository).  A queued message is
its list of text bytes before the terminator. -/

/-- Queue capacity fixed at `queue_init`. -/
def DISPLAY_QUEUE_CAP : Nat := 16

/-- Non-blocking append: succeeds below capacity, drops the new entry and
reports failure when the queue is full. -/
def queue_try_add (q : List (List Nat)) (msg : List Nat) :
    List (List Nat) × Bool :=
  if q.length < DISPLAY_QUEUE_CAP then (q ++ [msg], true) else (q, false)

/-- `enqueue_display(str)`: truncate to 63 bytes and try to enqueue; the
return value of `queue_try_add` is discarded, so a full queue drops the
message silently. -/
def enqueue_display (q : List (List Nat)) (str : List Nat) :
    List (List Nat) × Bool :=
  queue_try_add q (str.take 63)

/-- Push a whole list of texts, none drained in between. -/
def pushAllDisplay (q : List (List Nat)) (msgs : List (List Nat)) :
    List (List Nat) :=
  msgs.foldl (fun q s => (enqueue_display q s).1) q

lemma pushAllDisplay_eq (msgs : List (List Nat)) :
    ∀ q : List (List Nat), q.length ≤ DISPLAY_QUEUE_CAP →
    pushAllDisplay q msgs
      = q ++ (msgs.take (DISPLAY_QUEUE_CAP - q.length)).map (fun s => s.take 63) := by
  induction msgs with
  | nil => intro q h; simp [pushAllDisplay]
  | cons m ms ih =>
    intro q h
    by_cases hq : q.length < DISPLAY_QUEUE_CAP
    · have step : (enqueue_display q m).1 = q ++ [m.take 63] := by
        simp [enqueue_display, queue_try_add, hq]
      have hrec := ih (q ++ [m.take 63]) (by simp; omega)
      have hlen : (q ++ [m.take 63]).length = q.length + 1 := by simp
      have hsplit : DISPLAY_QUEUE_CAP - q.length
          = (DISPLAY_QUEUE_CAP - (q.length + 1)) + 1 := by omega
      calc pushAllDisplay q (m :: ms)
          = pushAllDisplay (q ++ [m.take 63]) ms := by
            simp [pushAllDisplay, step]
        _ = (q ++ [m.take 63]) ++
              (ms.take (DISPLAY_QUEUE_CAP - (q.length + 1))).map (fun s => s.take 63) := by
            rw [hrec, hlen]
        _ = q ++ ((m :: ms).take (DISPLAY_QUEUE_CAP - q.length)).map (fun s => s.take 63) := by
            rw [hsplit, List.take_succ_cons]
            simp
    · have hq16 : q.length = DISPLAY_QUEUE_CAP := by omega
      have step : (enqueue_display q m).1 = q := by
        simp [enqueue_display, queue_try_add, hq]
      have hrec := ih q h
      have : DISPLAY_QUEUE_CAP - q.length = 0 := by omega
      calc pushAllDisplay q (m :: ms)
          = pushAllDisplay q ms := by simp [pushAllDisplay, step]
        _ = q ++ (ms.take (DISPLAY_QUEUE_CAP - q.length)).map (fun s => s.take 63) := hrec
        _ = q ++ ((m :: ms).take (DISPLAY_QUEUE_CAP - q.length)).map (fun s => s.take 63) := by
            rw [this]
            simp

/-- C9: the display queue has fixed capacity 16; an enqueue truncates the text
to the 63-byte payload bound, a full queue drops the newest entry leaving the
contents unchanged (with `queue_try_add` reporting the drop), and pushing any
sequence of texts with none drained retains exactly the first 16, truncated,
in FIFO order — so 17 pushes yield 16 retrievable entries and every retained
entry fits the payload bound. -/
theorem display_queue_spec :
    (∀ q m, q.length = DISPLAY_QUEUE_CAP →
      (enqueue_display q m).1 = q ∧ (enqueue_display q m).2 = false) ∧
    (∀ msgs : List (List Nat),
      pushAllDisplay [] msgs
        = (msgs.take DISPLAY_QUEUE_CAP).map (fun s => s.take 63)) ∧
    (∀ msgs : List (List Nat), (pushAllDisplay [] msgs).length ≤ DISPLAY_QUEUE_CAP) ∧
    (∀ msgs : List (List Nat), ∀ m ∈ pushAllDisplay [] msgs, m.length ≤ 63) := by
  have hmain : ∀ msgs : List (List Nat),
      pushAllDisplay [] msgs
        = (msgs.take DISPLAY_QUEUE_CAP).map (fun s => s.take 63) := by
    intro msgs
    simpa using pushAllDisplay_eq msgs [] (by simp)
  refine ⟨?_, hmain, ?_, ?_⟩
  · intro q m h
    have : ¬ (q.length < DISPLAY_QUEUE_CAP) := by omega
    constructor <;> simp [enqueue_display, queue_try_add, this]
  · intro msgs
    rw [hmain]
    calc ((msgs.take DISPLAY_QUEUE_CAP).map (fun s => s.take 63)).length
        = (msgs.take DISPLAY_QUEUE_CAP).length := by simp
      _ ≤ DISPLAY_QUEUE_CAP := List.length_take_le _ _
  · intro msgs m hm
    rw [hmain] at hm
    obtain ⟨s, _, rfl⟩ := List.mem_map.mp hm
    simpa using List.length_take_le 63 s

/-- C9 witness: with the queue already holding 16 empty messages, a further
enqueue leaves it unchanged and reports the drop; and pushing 17 one-byte
texts from empty retains exactly the first 16 in order. -/
theorem display_queue_spec_witness :
    ((enqueue_display (List.replicate 16 []) [7]).1 = List.replicate 16 [] ∧
     (enqueue_display (List.replicate 16 []) [7]).2 = false) ∧
    pushAllDisplay [] ((List.range 17).map (fun i => [i]))
      = (((List.range 17).map (fun i => [i])).take DISPLAY_QUEUE_CAP).map
          (fun s => s.take 63) :=
  ⟨display_queue_spec.1 (List.replicate 16 []) [7] (by simp [DISPLAY_QUEUE_CAP]),
   display_queue_spec.2.1 ((List.range 17).map (fun i => [i]))⟩

end Cerberus
